import Mathlib

/-!
Verification of the coordination core of the m3 sharded stream-aggregation
service: flush-time watermark management, placement management, leader
election, the change-notification primitive, and the docker-harness helpers
(`withDefaults`, `toResponse`, `toResponseThrift`, `dockerResource.close`).

The repository sources provide the concrete code for the docker harness
(`a_common.go`); the three managers appear in the sources only through their
generated mock interfaces (`aggregator_mock.go`), so their behaviour is
modelled from the specification, as noted on each definition.
-/

namespace M3

/-! ## FlushTimesManager -/

/-- A shard identifier within a shard set. -/
abbrev ShardId := Nat

/-- `ShardSetFlushTimes`: a mapping from shard id to the latest fully-flushed
watermark, represented as an association list (first entry for a key wins). -/
abbrev ShardSetFlushTimes := List (ShardId × Nat)

/-- Look up the watermark recorded for shard `s` (first matching entry). -/
def lookupShard (ft : ShardSetFlushTimes) (s : ShardId) : Option Nat :=
  match ft with
  | [] => none
  | (k, v) :: rest => if k = s then some v else lookupShard rest s

/-- Errors surfaced by the flush-times manager. -/
inductive FlushError where
  | NonMonotonicUpdate
  deriving DecidableEq, Repr

/-- Modelled from the spec: the local state of a `FlushTimesManager` is the
most recently observed per-shard watermark snapshot (the real implementation
is absent from the sources; only its mock interface is present). -/
structure FlushTimesManager where
  flushTimes : ShardSetFlushTimes
  deriving DecidableEq, Repr

/-- `Get()`: returns the most recently observed watermark snapshot. -/
def FlushTimesManager.get (m : FlushTimesManager) : ShardSetFlushTimes :=
  m.flushTimes

/-- Modelled from the spec: `StoreAsync` validates that the update is
monotonic per shard against the last known value: every shard mentioned in
the update whose previous watermark is known must not regress. -/
def isMonotonicUpdate (cur upd : ShardSetFlushTimes) : Bool :=
  upd.all (fun p =>
    match lookupShard cur p.1 with
    | none => true
    | some w => decide (w ≤ p.2))

/-- Merge an accepted update over the current snapshot: updated shards take
the new value, shards not mentioned in the update keep their old value. -/
def mergeTimes (cur upd : ShardSetFlushTimes) : ShardSetFlushTimes :=
  upd ++ cur.filter (fun p => (lookupShard upd p.1).isNone)

/-- Modelled from the spec: `StoreAsync(times)` rejects with
`NonMonotonicUpdate` if any shard's proposed watermark regresses against the
last known value, and otherwise records the update merged over the current
snapshot (the real implementation is absent from the sources). -/
def FlushTimesManager.storeAsync (m : FlushTimesManager)
    (upd : ShardSetFlushTimes) : Except FlushError FlushTimesManager :=
  if isMonotonicUpdate m.flushTimes upd then
    .ok ⟨mergeTimes m.flushTimes upd⟩
  else
    .error .NonMonotonicUpdate

/-- The state resulting from a `StoreAsync` call: a rejected update leaves
the observable state unchanged. -/
def stepStore (m : FlushTimesManager) (upd : ShardSetFlushTimes) :
    FlushTimesManager :=
  match m.storeAsync upd with
  | .ok m2 => m2
  | .error _ => m

/-- Run a whole sequence of `StoreAsync` calls. -/
def runStores (m : FlushTimesManager) (upds : List ShardSetFlushTimes) :
    FlushTimesManager :=
  upds.foldl stepStore m

theorem lookupShard_filter (cur : ShardSetFlushTimes) (c : ShardId → Bool)
    (s : ShardId) :
    lookupShard (cur.filter (fun p => c p.1)) s =
      if c s then lookupShard cur s else none := by
  induction cur with
  | nil => simp [lookupShard]
  | cons hd tl ih =>
    obtain ⟨k, v⟩ := hd
    rw [List.filter_cons]
    by_cases hk : k = s
    · subst hk
      by_cases hc : c k
      · simp [hc, lookupShard]
      · simp [hc, ih]
    · by_cases hc : c k
      · simp [hc, lookupShard, hk, ih]
      · simp [hc, ih, lookupShard, hk]

theorem lookupShard_append_some (xs ys : ShardSetFlushTimes) (s : ShardId)
    (v : Nat) (h : lookupShard xs s = some v) :
    lookupShard (xs ++ ys) s = some v := by
  induction xs with
  | nil => simp [lookupShard] at h
  | cons hd tl ih =>
    obtain ⟨k, x⟩ := hd
    rw [lookupShard] at h
    by_cases hk : k = s
    · simp only [hk, if_true] at h
      simp [lookupShard, hk, h]
    · simp only [hk, if_false] at h
      simpa [lookupShard, hk] using ih h

theorem lookupShard_append_none (xs ys : ShardSetFlushTimes) (s : ShardId)
    (h : lookupShard xs s = none) :
    lookupShard (xs ++ ys) s = lookupShard ys s := by
  induction xs with
  | nil => simp
  | cons hd tl ih =>
    obtain ⟨k, x⟩ := hd
    rw [lookupShard] at h
    by_cases hk : k = s
    · simp [hk] at h
    · simp only [hk, if_false] at h
      simpa [lookupShard, hk] using ih h

/-- A successful lookup identifies an entry of the list. -/
theorem mem_of_lookupShard_some (ft : ShardSetFlushTimes) (s : ShardId)
    (v : Nat) (h : lookupShard ft s = some v) : (s, v) ∈ ft := by
  induction ft with
  | nil => simp [lookupShard] at h
  | cons hd tl ih =>
    obtain ⟨k, x⟩ := hd
    rw [lookupShard] at h
    by_cases hk : k = s
    · simp only [hk, if_true] at h
      simp only [Option.some.injEq] at h
      subst hk
      subst h
      exact List.mem_cons_self _ _
    · simp only [hk, if_false] at h
      exact List.mem_cons_of_mem _ (ih h)

/-- Lookup in a merged snapshot where the update mentions the shard: the
update wins. -/
theorem lookupShard_mergeTimes_some (cur upd : ShardSetFlushTimes)
    (s : ShardId) (v : Nat) (h : lookupShard upd s = some v) :
    lookupShard (mergeTimes cur upd) s = some v :=
  lookupShard_append_some upd _ s v h

/-- Lookup in a merged snapshot where the update does not mention the
shard: the old snapshot is kept. -/
theorem lookupShard_mergeTimes_none (cur upd : ShardSetFlushTimes)
    (s : ShardId) (h : lookupShard upd s = none) :
    lookupShard (mergeTimes cur upd) s = lookupShard cur s := by
  unfold mergeTimes
  rw [lookupShard_append_none upd _ s h,
    lookupShard_filter cur (fun k => (lookupShard upd k).isNone) s]
  simp [h]

/-- If a shard's watermark was visible before a `StoreAsync` step, it is
still visible afterwards and has not decreased. -/
theorem stepStore_mono (m : FlushTimesManager) (upd : ShardSetFlushTimes)
    (s : ShardId) (w1 : Nat) (h : lookupShard m.get s = some w1) :
    ∃ w2, lookupShard (stepStore m upd).get s = some w2 ∧ w1 ≤ w2 := by
  unfold stepStore FlushTimesManager.storeAsync
  by_cases hmono : isMonotonicUpdate m.flushTimes upd
  · simp only [hmono, if_true]
    rw [FlushTimesManager.get] at *
    cases hu : lookupShard upd s with
    | none =>
      rw [lookupShard_mergeTimes_none m.flushTimes upd s hu]
      exact ⟨w1, h, le_refl w1⟩
    | some v =>
      refine ⟨v, lookupShard_mergeTimes_some m.flushTimes upd s v hu, ?_⟩
      have hp : (s, v) ∈ upd := mem_of_lookupShard_some upd s v hu
      rw [isMonotonicUpdate] at hmono
      have hall := List.all_eq_true.mp hmono (s, v) hp
      simp only at hall
      rw [h] at hall
      exact of_decide_eq_true hall
  · simp only [hmono, if_false]
    exact ⟨w1, h, le_refl w1⟩

/-- With no duplicate shard keys, every entry of the snapshot is what
lookup returns for its shard. -/
theorem lookupShard_eq_of_mem_nodup (ft : ShardSetFlushTimes) (s : ShardId)
    (v : Nat) (hnd : (ft.map Prod.fst).Nodup) (h : (s, v) ∈ ft) :
    lookupShard ft s = some v := by
  induction ft with
  | nil => simp at h
  | cons hd tl ih =>
    obtain ⟨k, x⟩ := hd
    rw [List.map_cons, List.nodup_cons] at hnd
    rcases List.mem_cons.mp h with heq | hmem
    · rw [Prod.mk.injEq] at heq
      rw [lookupShard, heq.1, if_pos rfl, heq.2]
    · have hk : k ≠ s := by
        intro hks
        subst hks
        exact hnd.1 (List.mem_map.mpr ⟨(k, v), hmem, rfl⟩)
      rw [lookupShard, if_neg hk]
      exact ih hnd.2 hmem

/-- Claim C1: for every FlushTimesManager and every sequence of StoreAsync
calls, the watermark observable through Get for any given shard never
decreases: if Get returns watermark w1 for a shard, then after any further
StoreAsync calls Get returns some w2 with w1 ≤ w2. -/
theorem flushTimes_get_monotonic (m : FlushTimesManager)
    (upds : List ShardSetFlushTimes) (s : ShardId) (w1 : Nat)
    (h : lookupShard m.get s = some w1) :
    ∃ w2, lookupShard (runStores m upds).get s = some w2 ∧ w1 ≤ w2 := by
  induction upds generalizing m w1 with
  | nil => exact ⟨w1, h, le_refl w1⟩
  | cons u rest ih =>
    simp only [runStores, List.foldl] at *
    obtain ⟨w, hw, hle⟩ := stepStore_mono m u s w1 h
    obtain ⟨w2, hw2, hle2⟩ := ih (stepStore m u) w hw
    exact ⟨w2, hw2, le_trans hle hle2⟩

/-- Witness for C1 at a concrete input. -/
theorem flushTimes_get_monotonic_witness :
    lookupShard (FlushTimesManager.get ⟨[(0, 100)]⟩) 0 = some 100 ∧
      ∃ w2, lookupShard (runStores ⟨[(0, 100)]⟩ [[(0, 150)], [(0, 120)]]).get 0 =
          some w2 ∧ 100 ≤ w2 :=
  ⟨by decide,
    flushTimes_get_monotonic ⟨[(0, 100)]⟩ [[(0, 150)], [(0, 120)]] 0 100 (by decide)⟩

/-- Claim C2: StoreAsync returns NonMonotonicUpdate when some shard of the
update regresses below the last known watermark, leaving the state readable
via Get unchanged; an update whose per-shard values are all at least the
last known values succeeds, and Get then reflects the stored values merged
over the shards not mentioned in the update. -/
theorem storeAsync_monotonic_validation (m : FlushTimesManager)
    (upd : ShardSetFlushTimes) (hnd : (upd.map Prod.fst).Nodup) :
    ((∃ s v w, lookupShard upd s = some v ∧ lookupShard m.get s = some w ∧
        v < w) →
      m.storeAsync upd = .error .NonMonotonicUpdate ∧ stepStore m upd = m) ∧
    ((∀ s v w, lookupShard upd s = some v → lookupShard m.get s = some w →
        w ≤ v) →
      ∃ m2, m.storeAsync upd = .ok m2 ∧
        (∀ s v, lookupShard upd s = some v → lookupShard m2.get s = some v) ∧
        (∀ s, lookupShard upd s = none →
          lookupShard m2.get s = lookupShard m.get s)) := by
  constructor
  · rintro ⟨s, v, w, hu, hc, hvw⟩
    have hmem : (s, v) ∈ upd := mem_of_lookupShard_some upd s v hu
    have hfail : isMonotonicUpdate m.flushTimes upd = false := by
      rw [isMonotonicUpdate]
      by_contra hall
      rw [Bool.not_eq_false] at hall
      have := List.all_eq_true.mp hall (s, v) hmem
      simp only at this
      rw [FlushTimesManager.get] at hc
      rw [hc] at this
      exact absurd (of_decide_eq_true this) (not_le_of_lt hvw)
    constructor
    · rw [FlushTimesManager.storeAsync, hfail]
      simp
    · rw [stepStore, FlushTimesManager.storeAsync, hfail]
      simp
  · intro hmono
    have hok : isMonotonicUpdate m.flushTimes upd = true := by
      rw [isMonotonicUpdate, List.all_eq_true]
      rintro ⟨s, v⟩ hmem
      simp only
      cases hc : lookupShard m.flushTimes s with
      | none => rfl
      | some w =>
        have hu : lookupShard upd s = some v :=
          lookupShard_eq_of_mem_nodup upd s v hnd hmem
        exact decide_eq_true (hmono s v w hu hc)
    refine ⟨⟨mergeTimes m.flushTimes upd⟩, ?_, ?_, ?_⟩
    · rw [FlushTimesManager.storeAsync, hok]
      simp
    · intro s v hu
      exact lookupShard_mergeTimes_some m.flushTimes upd s v hu
    · intro s hu
      exact lookupShard_mergeTimes_none m.flushTimes upd s hu

/-- Witness for C2: the spec scenario with watermarks
shard0 = 100, shard1 = 100. -/
theorem storeAsync_monotonic_validation_witness :
    (FlushTimesManager.storeAsync ⟨[(0, 100), (1, 100)]⟩ [(0, 90)] =
      .error .NonMonotonicUpdate) ∧
    ∃ m2, FlushTimesManager.storeAsync ⟨[(0, 100), (1, 100)]⟩ [(0, 110)] =
        .ok m2 ∧
      lookupShard m2.get 0 = some 110 ∧ lookupShard m2.get 1 = some 100 := by
  constructor
  · exact ((storeAsync_monotonic_validation ⟨[(0, 100), (1, 100)]⟩ [(0, 90)]
      (by decide)).1 ⟨0, 90, 100, by decide, by decide, by decide⟩).1
  · have hmono : ∀ s v w, lookupShard [(0, 110)] s = some v →
        lookupShard (FlushTimesManager.get ⟨[(0, 100), (1, 100)]⟩) s = some w →
        w ≤ v := by
      intro s v w h1 h2
      by_cases h0 : s = 0
      · subst h0
        simp [lookupShard, FlushTimesManager.get] at h1 h2
        omega
      · rw [lookupShard] at h1
        rw [if_neg (fun hh => h0 hh.symm)] at h1
        simp [lookupShard] at h1
    obtain ⟨m2, hok, hsome, hnone⟩ :=
      (storeAsync_monotonic_validation ⟨[(0, 100), (1, 100)]⟩ [(0, 110)]
        (by decide)).2 hmono
    refine ⟨m2, hok, hsome 0 110 (by decide), ?_⟩
    rw [hnone 1 (by decide)]
    decide

/-! ## PlacementManager -/

/-- Look up the shards assigned to an instance id. -/
def lookupInst (l : List (String × List Nat)) (iid : String) :
    Option (List Nat) :=
  match l with
  | [] => none
  | (k, v) :: rest => if k = iid then some v else lookupInst rest iid

/-- A placement: a versioned point-in-time mapping of instance ids to the
shards they own, becoming active at its cutover time. -/
structure Placement where
  version : Nat
  cutoverNanos : Nat
  instances : List (String × List Nat)
  deriving DecidableEq, Repr

/-- The shards a placement assigns to a given instance id. -/
def Placement.shardsFor (p : Placement) (iid : String) : Option (List Nat) :=
  lookupInst p.instances iid

/-- An active staged placement holder: the ordered sequence of placements it
stages. -/
structure StagedPlacement where
  placements : List Placement
  deriving DecidableEq, Repr

/-- An instance: a stable instance id plus the shards it owns. -/
structure Instance where
  id : String
  shards : List Nat
  deriving DecidableEq, Repr

/-- Errors surfaced by the placement manager. -/
inductive PlacementError where
  | NotOpen
  | NoPlacement
  | InstanceAbsent
  deriving DecidableEq, Repr

/-- Modelled from the spec: the `PlacementManager` state — whether `Open`
has succeeded, this process's instance id, and the currently active staged
placement holder with its resolved snapshot, `none` until a placement value
has been observed from the store (the real implementation is absent from
the sources; only its mock interface is present). -/
structure PlacementManager where
  opened : Bool
  instanceId : String
  observed : Option (StagedPlacement × Placement)
  deriving DecidableEq, Repr

/-- Modelled from the spec: `Placement()` fails with `NotOpen` before
`Open`, with `NoPlacement` when no placement has been observed, and
otherwise returns the active staged placement holder and its resolved
snapshot. -/
def PlacementManager.placementQuery (m : PlacementManager) :
    Except PlacementError (StagedPlacement × Placement) :=
  if m.opened then
    match m.observed with
    | none => .error .NoPlacement
    | some sp => .ok sp
  else
    .error .NotOpen

/-- Modelled from the spec: `InstanceFrom(p)` resolves this process's shard
ownership under an arbitrary placement `p`. -/
def PlacementManager.instanceFrom (m : PlacementManager) (p : Placement) :
    Except PlacementError Instance :=
  match p.shardsFor m.instanceId with
  | none => .error .InstanceAbsent
  | some sh => .ok ⟨m.instanceId, sh⟩

/-- Modelled from the spec: `Instance()` resolves this process's shard
ownership under the currently active placement. -/
def PlacementManager.instanceQuery (m : PlacementManager) :
    Except PlacementError Instance :=
  match m.placementQuery with
  | .error e => .error e
  | .ok (_, p) => m.instanceFrom p

/-- Claim C3: `Placement()` fails in exactly two query-failure situations —
`NotOpen` before `Open` has succeeded, `NoPlacement` after `Open` but
before any placement has been observed — and otherwise returns the active
staged placement holder with its resolved snapshot and no error. -/
theorem placementQuery_error_cases (m : PlacementManager) :
    (m.opened = false → m.placementQuery = .error .NotOpen) ∧
    (m.opened = true → m.observed = none →
      m.placementQuery = .error .NoPlacement) ∧
    (∀ sp p, m.opened = true → m.observed = some (sp, p) →
      m.placementQuery = .ok (sp, p)) := by
  refine ⟨?_, ?_, ?_⟩
  · intro h
    rw [PlacementManager.placementQuery, h]
    simp
  · intro h1 h2
    rw [PlacementManager.placementQuery, h1, h2]
    simp
  · intro sp p h1 h2
    rw [PlacementManager.placementQuery, h1, h2]
    simp

/-- Witness for C3 at concrete inputs. -/
theorem placementQuery_error_cases_witness :
    PlacementManager.placementQuery ⟨false, "i1", none⟩ = .error .NotOpen ∧
    PlacementManager.placementQuery ⟨true, "i1", none⟩ =
      .error .NoPlacement := by
  constructor
  · exact (placementQuery_error_cases ⟨false, "i1", none⟩).1 rfl
  · exact (placementQuery_error_cases ⟨true, "i1", none⟩).2.1 rfl rfl

/-- Claim C6: for a staged placement `p` whose cutover is still in the
future, `InstanceFrom(p)` returns the ownership assigned by `p` itself
while `Instance()` at the same moment returns ownership under the currently
active placement, and when the two placements assign different shards to
this instance the results differ. -/
theorem instanceFrom_staged_vs_active (m : PlacementManager)
    (p active : Placement) (sp : StagedPlacement) (now : Nat)
    (shp sha : List Nat)
    (hopen : m.opened = true) (hobs : m.observed = some (sp, active))
    (hfut : now < p.cutoverNanos)
    (hp : p.shardsFor m.instanceId = some shp)
    (ha : active.shardsFor m.instanceId = some sha) :
    m.instanceFrom p = .ok ⟨m.instanceId, shp⟩ ∧
    m.instanceQuery = .ok ⟨m.instanceId, sha⟩ ∧
    (shp ≠ sha → m.instanceFrom p ≠ m.instanceQuery) := by
  have h1 : m.instanceFrom p = .ok ⟨m.instanceId, shp⟩ := by
    rw [PlacementManager.instanceFrom, hp]
  have h2 : m.instanceQuery = .ok ⟨m.instanceId, sha⟩ := by
    rw [PlacementManager.instanceQuery, PlacementManager.placementQuery,
      hopen, hobs]
    simp only [if_true]
    rw [PlacementManager.instanceFrom, ha]
  refine ⟨h1, h2, ?_⟩
  intro hdiff
  rw [h1, h2]
  intro heq2
  rw [Except.ok.injEq, Instance.mk.injEq] at heq2
  exact hdiff heq2.2

/-- Witness for C6: the staged placement assigns shard 3 while the active
placement assigns shards 1 and 2. -/
theorem instanceFrom_staged_vs_active_witness :
    (PlacementManager.instanceFrom
        ⟨true, "i1", some (⟨[]⟩, ⟨1, 0, [("i1", [1, 2])]⟩)⟩
        ⟨2, 10, [("i1", [3])]⟩ = .ok ⟨"i1", [3]⟩) ∧
    (PlacementManager.instanceQuery
        ⟨true, "i1", some (⟨[]⟩, ⟨1, 0, [("i1", [1, 2])]⟩)⟩ =
      .ok ⟨"i1", [1, 2]⟩) ∧
    ([3] ≠ [1, 2] →
      PlacementManager.instanceFrom
          ⟨true, "i1", some (⟨[]⟩, ⟨1, 0, [("i1", [1, 2])]⟩)⟩
          ⟨2, 10, [("i1", [3])]⟩ ≠
        PlacementManager.instanceQuery
          ⟨true, "i1", some (⟨[]⟩, ⟨1, 0, [("i1", [1, 2])]⟩)⟩) :=
  instanceFrom_staged_vs_active
    ⟨true, "i1", some (⟨[]⟩, ⟨1, 0, [("i1", [1, 2])]⟩)⟩
    ⟨2, 10, [("i1", [3])]⟩ ⟨1, 0, [("i1", [1, 2])]⟩ ⟨[]⟩ 5 [3] [1, 2]
    rfl rfl (by decide) (by decide) (by decide)

/-! ## ElectionManager -/

/-- `ElectionState`: the closed enumeration of leadership states. -/
inductive ElectionState where
  | Unknown
  | Follower
  | Leader
  deriving DecidableEq, Repr

/-- Errors surfaced by the election manager. -/
inductive ElectionError where
  | Cancelled
  | AlreadyOpen
  | AlreadyClosed
  deriving DecidableEq, Repr

/-- Modelled from the spec: the `ElectionManager` state — the current
election state and whether a campaign task is running (the real
implementation is absent from the sources; only its mock interface is
present). -/
structure ElectionManager where
  electionState : ElectionState
  campaigning : Bool
  deriving DecidableEq, Repr

/-- `ElectionState()`: an infallible, non-blocking read of the current
state — a total function returning an `ElectionState` and no error. -/
def ElectionManager.electionStateRead (m : ElectionManager) : ElectionState :=
  m.electionState

/-- Modelled from the spec: `Resign(ctx)` honors the caller's context.
`ctxCancelled` says whether the context was cancelled or timed out before
the external store acknowledged the resignation; `released` resolves the
inherent race of whether the store had already released leadership when the
cancellation took effect. On cancellation the call fails with `Cancelled`
while the background campaign keeps running; otherwise leadership is
released and the state becomes `Follower`. -/
def ElectionManager.resign (m : ElectionManager)
    (ctxCancelled released : Bool) : Option ElectionError × ElectionManager :=
  if ctxCancelled then
    (some .Cancelled,
      { m with electionState := if released then .Follower else m.electionState })
  else
    (none, { m with electionState := .Follower })

/-- Claim C5: `ElectionState()` is an infallible, non-blocking read whose
result is always one of the closed enumeration Unknown, Follower, Leader. -/
theorem electionStateRead_total_enum (m : ElectionManager) :
    m.electionStateRead = .Unknown ∨ m.electionStateRead = .Follower ∨
      m.electionStateRead = .Leader := by
  cases h : m.electionStateRead
  · exact Or.inl rfl
  · exact Or.inr (Or.inl rfl)
  · exact Or.inr (Or.inr rfl)

/-- Claim C8: when the caller's context is cancelled before the store
acknowledges, `Resign` returns `Cancelled`, the background campaign keeps
running, the post-call leadership state is unconstrained (both outcomes are
realizable depending on whether the store had released the lease), and the
manager remains usable: `ElectionState()` can be re-read and still yields a
value of the closed enumeration. -/
theorem resign_cancelled_behavior (m : ElectionManager) (released : Bool) :
    (m.resign true released).1 = some .Cancelled ∧
    (m.resign true released).2.campaigning = m.campaigning ∧
    (m.resign true true).2.electionState = .Follower ∧
    (m.resign true false).2.electionState = m.electionState ∧
    ((m.resign true released).2.electionStateRead = .Unknown ∨
      (m.resign true released).2.electionStateRead = .Follower ∨
      (m.resign true released).2.electionStateRead = .Leader) := by
  refine ⟨rfl, rfl, rfl, rfl, ?_⟩
  cases h : (m.resign true released).2.electionStateRead
  · exact Or.inl rfl
  · exact Or.inr (Or.inl rfl)
  · exact Or.inr (Or.inr rfl)

/-! ## Change-notification primitive -/

/-- A subscriber handle of the change-notification primitive. -/
structure WatchHandle where
  hid : Nat
  isOpen : Bool
  delivered : List Nat
  deriving DecidableEq, Repr

/-- Modelled from the spec: the fan-out state for one underlying key — the
number of upstream store subscriptions held for that key, the subscriber
handles, and a fresh-id counter (the real implementation is absent from the
sources; only its mock interface is present). -/
structure Watchable where
  upstreamSubs : Nat
  handles : List WatchHandle
  nextId : Nat
  deriving DecidableEq, Repr

/-- The fan-out state before any caller has watched the key. -/
def Watchable.initial : Watchable :=
  ⟨0, [], 0⟩

/-- Modelled from the spec: `Watch()` creates the single upstream
subscription on first use (it is shared thereafter) and hands the caller a
fresh independent handle. -/
def Watchable.watch (w : Watchable) : Watchable :=
  { upstreamSubs := if w.upstreamSubs = 0 then 1 else w.upstreamSubs
    handles := w.handles ++ [⟨w.nextId, true, []⟩]
    nextId := w.nextId + 1 }

/-- Deliver one upstream update to every open handle. -/
def Watchable.deliver (w : Watchable) (v : Nat) : Watchable :=
  { w with handles := w.handles.map (fun h =>
      if h.isOpen then { h with delivered := h.delivered ++ [v] } else h) }

/-- Deliver a whole ordered sequence of upstream updates. -/
def Watchable.deliverAll (w : Watchable) (vs : List Nat) : Watchable :=
  vs.foldl Watchable.deliver w

/-- Close the handle with the given id; the other handles are untouched. -/
def Watchable.closeHandle (w : Watchable) (i : Nat) : Watchable :=
  { w with handles := w.handles.map (fun h =>
      if h.hid = i then { h with isOpen := false } else h) }

/-- `n` callers invoking `Watch()` on the same underlying key, in some
interleaving order. -/
def watchN : Nat → Watchable
  | 0 => Watchable.initial
  | n + 1 => (watchN n).watch

theorem watchN_state (n : Nat) :
    (watchN n).handles = (List.range n).map (fun i => ⟨i, true, []⟩) ∧
    (watchN n).nextId = n ∧
    (watchN n).upstreamSubs = (if n = 0 then 0 else 1) := by
  induction n with
  | zero => exact ⟨rfl, rfl, rfl⟩
  | succ k ih =>
    obtain ⟨h1, h2, h3⟩ := ih
    refine ⟨?_, ?_, ?_⟩
    · show ((watchN k).watch).handles = _
      rw [Watchable.watch]
      rw [h1, h2, List.range_succ, List.map_append]
      rfl
    · show ((watchN k).watch).nextId = k + 1
      rw [Watchable.watch, h2]
    · show ((watchN k).watch).upstreamSubs = _
      rw [Watchable.watch]
      simp only
      rw [h3]
      by_cases hk : k = 0
      · simp [hk]
      · simp [hk]

/-- `deliverAll` appends the update sequence to every open handle and
leaves closed handles untouched. -/
theorem deliverAll_handles (vs : List Nat) (w : Watchable) :
    (w.deliverAll vs).handles = w.handles.map (fun h =>
      if h.isOpen then { h with delivered := h.delivered ++ vs } else h) := by
  induction vs generalizing w with
  | nil =>
    show w.handles = _
    have : (fun (h : WatchHandle) =>
        if h.isOpen then { h with delivered := h.delivered ++ [] } else h) =
        fun h => h := by
      funext h
      obtain ⟨a, b, c⟩ := h
      simp
    rw [this, List.map_id']
  | cons v rest ih =>
    show ((w.deliver v).deliverAll rest).handles = _
    rw [ih, Watchable.deliver]
    simp only [List.map_map]
    congr 1
    funext h
    obtain ⟨a, b, c⟩ := h
    by_cases ho : b <;> simp [ho, Function.comp]

/-- Claim C7: for `n ≥ 1` callers of `Watch()` on the same key there is
exactly one upstream subscription, each caller holds its own handle (all
ids distinct), every handle replays the same ordered update sequence, and
closing one handle does not affect delivery on the other handles. -/
theorem watch_fanout (n : Nat) (hn : 1 ≤ n) (us vs : List Nat) (j : Nat) :
    (watchN n).upstreamSubs = 1 ∧
    (watchN n).handles.length = n ∧
    ((watchN n).handles.map (fun h => h.hid)).Nodup ∧
    (∀ h ∈ ((watchN n).deliverAll us).handles, h.delivered = us) ∧
    (∀ h ∈ ((((watchN n).deliverAll us).closeHandle j).deliverAll vs).handles,
      h.hid ≠ j → h.delivered = us ++ vs) := by
  obtain ⟨h1, _, h3⟩ := watchN_state n
  refine ⟨?_, ?_, ?_, ?_, ?_⟩
  · rw [h3, if_neg (by omega)]
  · rw [h1, List.length_map, List.length_range]
  · rw [h1, List.map_map]
    have : ((fun (h : WatchHandle) => h.hid) ∘ fun i => ⟨i, true, []⟩) =
        fun (i : Nat) => i := rfl
    rw [this, List.map_id']
    exact List.nodup_range n
  · intro h hmem
    rw [deliverAll_handles, h1, List.map_map] at hmem
    obtain ⟨i, _, heq⟩ := List.mem_map.mp hmem
    rw [← heq]
    simp [Function.comp]
  · intro h hmem hne
    rw [deliverAll_handles, Watchable.closeHandle] at hmem
    simp only at hmem
    rw [deliverAll_handles, h1] at hmem
    simp only [List.map_map] at hmem
    obtain ⟨i, _, heq⟩ := List.mem_map.mp hmem
    by_cases hij : i = j
    · exfalso
      apply hne
      rw [← heq]
      simp [Function.comp, hij]
    · rw [← heq]
      simp [Function.comp, hij]

/-- Witness for C7 at a concrete input: three callers, two updates, the
first handle closed before a third update. -/
theorem watch_fanout_witness :
    (watchN 3).upstreamSubs = 1 ∧
    (watchN 3).handles.length = 3 ∧
    ((watchN 3).handles.map (fun h => h.hid)).Nodup ∧
    (∀ h ∈ ((watchN 3).deliverAll [7, 8]).handles, h.delivered = [7, 8]) ∧
    (∀ h ∈ ((((watchN 3).deliverAll [7, 8]).closeHandle 0).deliverAll
        [9]).handles, h.hid ≠ 0 → h.delivered = [7, 8] ++ [9]) :=
  watch_fanout 3 (by decide) [7, 8] [9] 0

/-! ## Docker test harness (a_common.go) -/

/-- Errors of the docker harness: `errClosed` is the sentinel returned when
closing an already-closed resource; `purgeFailure` stands for a failure of
`pool.Purge`. -/
inductive HarnessError where
  | errClosed
  | purgeFailure
  deriving DecidableEq, Repr

/-- `dockerResource`: `closed` mirrors the Go struct field; `purgeCount` is
ghost state counting how many times the release action `pool.Purge` has
actually run. -/
structure dockerResource where
  closed : Bool
  purgeCount : Nat
  deriving DecidableEq, Repr

/-- `dockerResource.close`: if already closed it logs and returns
`errClosed`; otherwise it marks the resource closed, runs the release
action `pool.Purge` exactly once, and returns that action's outcome
(`purgeErr`, supplied by the environment). -/
def dockerResource.close (c : dockerResource)
    (purgeErr : Option HarnessError) :
    Option HarnessError × dockerResource :=
  if c.closed then
    (some .errClosed, c)
  else
    (purgeErr, { closed := true, purgeCount := c.purgeCount + 1 })

/-- Run a whole sequence of `close` calls, each with its own purge
outcome. -/
def closeSeq (c : dockerResource) (es : List (Option HarnessError)) :
    dockerResource :=
  es.foldl (fun st e => (st.close e).2) c

theorem closeSeq_purge_bound (es : List (Option HarnessError))
    (c : dockerResource) :
    (closeSeq c es).purgeCount ≤
      c.purgeCount + (if c.closed then 0 else 1) := by
  induction es generalizing c with
  | nil =>
    show c.purgeCount ≤ _
    split <;> omega
  | cons e rest ih =>
    show (closeSeq (c.close e).2 rest).purgeCount ≤ _
    by_cases hc : c.closed
    · have h2 : (c.close e).2 = c := by
        rw [dockerResource.close, if_pos hc]
      rw [h2, if_pos hc]
      have hr := ih c
      rw [if_pos hc] at hr
      exact hr
    · have h2 : (c.close e).2 = ⟨true, c.purgeCount + 1⟩ := by
        rw [dockerResource.close, if_neg hc]
      rw [h2, if_neg hc]
      have hr := ih ⟨true, c.purgeCount + 1⟩
      simp only [if_pos] at hr
      simpa using hr

/-- Claim C4: after a successful `close`, a second `close` returns the
already-closed error, changes no state, and runs no release action; across
any sequence of `close` calls from an unclosed resource the release action
runs at most once. -/
theorem close_double_close (c : dockerResource)
    (e1 e2 : Option HarnessError) (hcl : c.closed = false)
    (hsucc : (c.close e1).1 = none) :
    ((c.close e1).2.close e2).1 = some .errClosed ∧
    ((c.close e1).2.close e2).2 = (c.close e1).2 ∧
    (∀ es, (closeSeq c es).purgeCount ≤ c.purgeCount + 1) := by
  have hne : ¬ (c.closed = true) := by rw [hcl]; simp
  have h2 : (c.close e1).2 = ⟨true, c.purgeCount + 1⟩ := by
    rw [dockerResource.close, if_neg hne]
  refine ⟨?_, ?_, ?_⟩
  · rw [h2, dockerResource.close]
    simp
  · rw [h2, dockerResource.close]
    simp
  · intro es
    have hb := closeSeq_purge_bound es c
    rw [hcl] at hb
    simpa using hb

/-- Witness for C4 at a concrete input. -/
theorem close_double_close_witness :
    ((dockerResource.close ⟨false, 0⟩ none).2.close none).1 =
      some .errClosed ∧
    ((dockerResource.close ⟨false, 0⟩ none).2.close none).2 =
      (dockerResource.close ⟨false, 0⟩ none).2 ∧
    (∀ es, (closeSeq ⟨false, 0⟩ es).purgeCount ≤ 0 + 1) :=
  close_double_close ⟨false, 0⟩ none none rfl rfl

/-- `dockerResourceOptions`, with instrument options kept only to their
nil-ness (an optional marker value). -/
structure dockerResourceOptions where
  overrideDefaults : Bool
  source : String
  containerName : String
  dockerFile : String
  portList : List Nat
  mounts : List String
  iOpts : Option Nat
  deriving DecidableEq, Repr

/-- `withDefaults`: fill unset fields with default values, unless
`overrideDefaults` is set, in which case the receiver is returned as is. -/
def dockerResourceOptions.withDefaults
    (o defaultOpts : dockerResourceOptions) : dockerResourceOptions :=
  if o.overrideDefaults then o
  else
    let o1 := if o.source.length = 0 then
      { o with source := defaultOpts.source } else o
    let o2 := if o1.containerName.length = 0 then
      { o1 with containerName := defaultOpts.containerName } else o1
    let o3 := if o2.dockerFile.length = 0 then
      { o2 with dockerFile := defaultOpts.dockerFile } else o2
    let o4 := if o3.portList.length = 0 then
      { o3 with portList := defaultOpts.portList } else o3
    let o5 := if o4.mounts.length = 0 then
      { o4 with mounts := defaultOpts.mounts } else o4
    if o5.iOpts = none then { o5 with iOpts := defaultOpts.iOpts } else o5

/-- Claim C9: with `overrideDefaults` set the receiver is returned
completely unchanged regardless of the defaults; otherwise each non-empty
(non-nil for `iOpts`) field is preserved and each empty field is replaced
by the corresponding default. -/
theorem withDefaults_fields (o d : dockerResourceOptions) :
    (o.overrideDefaults = true → o.withDefaults d = o) ∧
    (o.overrideDefaults = false →
      (o.withDefaults d).overrideDefaults = false ∧
      (o.withDefaults d).source =
        (if o.source.length = 0 then d.source else o.source) ∧
      (o.withDefaults d).containerName =
        (if o.containerName.length = 0 then d.containerName
          else o.containerName) ∧
      (o.withDefaults d).dockerFile =
        (if o.dockerFile.length = 0 then d.dockerFile else o.dockerFile) ∧
      (o.withDefaults d).portList =
        (if o.portList.length = 0 then d.portList else o.portList) ∧
      (o.withDefaults d).mounts =
        (if o.mounts.length = 0 then d.mounts else o.mounts) ∧
      (o.withDefaults d).iOpts =
        (if o.iOpts = none then d.iOpts else o.iOpts)) := by
  obtain ⟨ov, s, cn, df, pl, ms, io⟩ := o
  constructor
  · intro h
    simp only at h
    rw [dockerResourceOptions.withDefaults, if_pos h]
  · intro h
    simp only at h
    rw [dockerResourceOptions.withDefaults]
    subst h
    simp only [Bool.false_eq_true, if_false]
    by_cases h1 : s.length = 0 <;>
      by_cases h2 : cn.length = 0 <;>
        by_cases h3 : df.length = 0 <;>
          by_cases h4 : pl.length = 0 <;>
            by_cases h5 : ms.length = 0 <;>
              by_cases h6 : io = none <;>
                simp only [h1, h2, h3, h4, h5, h6, if_true, if_false,
                  eq_self_iff_true, and_self, if_pos, if_neg]

/-- Witness for C9 at a concrete input: empty source, non-empty container
name, nil instrument options. -/
theorem withDefaults_fields_witness :
    (dockerResourceOptions.withDefaults
        ⟨false, "", "c", "", [], ["m"], none⟩
        ⟨false, "srcD", "cnD", "dfD", [9], ["mD"], some 7⟩).source = "srcD" ∧
    (dockerResourceOptions.withDefaults
        ⟨false, "", "c", "", [], ["m"], none⟩
        ⟨false, "srcD", "cnD", "dfD", [9], ["mD"], some 7⟩).containerName =
      "c" ∧
    (dockerResourceOptions.withDefaults
        ⟨false, "", "c", "", [], ["m"], none⟩
        ⟨false, "srcD", "cnD", "dfD", [9], ["mD"], some 7⟩).iOpts = some 7 := by
  have h := (withDefaults_fields ⟨false, "", "c", "", [], ["m"], none⟩
    ⟨false, "srcD", "cnD", "dfD", [9], ["mD"], some 7⟩).2 rfl
  refine ⟨?_, ?_, ?_⟩
  · rw [h.2.1]
    decide
  · rw [h.2.2.1]
    decide
  · rw [h.2.2.2.2.2.2]
    decide

/-- Errors of the response-decoding helpers. -/
inductive RespError where
  | readFailure
  | badStatus (code : Nat)
  | unmarshalFailure
  deriving DecidableEq, Repr

/-- `toResponse`: read the HTTP body (may fail), reject any status code
with `statusCode / 100 != 2`, then unmarshal the body (jsonpb) into the
response value. -/
def toResponse {α : Type} (statusCode : Nat) (bodyRead : Option (List Nat))
    (unmarshal : List Nat → Option α) : Except RespError α :=
  match bodyRead with
  | none => .error .readFailure
  | some b =>
    if statusCode / 100 ≠ 2 then .error (.badStatus statusCode)
    else
      match unmarshal b with
      | none => .error .unmarshalFailure
      | some v => .ok v

/-- `toResponseThrift`: identical control flow to `toResponse`, with plain
json unmarshalling. -/
def toResponseThrift {α : Type} (statusCode : Nat)
    (bodyRead : Option (List Nat)) (unmarshal : List Nat → Option α) :
    Except RespError α :=
  match bodyRead with
  | none => .error .readFailure
  | some b =>
    if statusCode / 100 ≠ 2 then .error (.badStatus statusCode)
    else
      match unmarshal b with
      | none => .error .unmarshalFailure
      | some v => .ok v

/-- Claim C10: both helpers return an error for every status code outside
200-299 (the check is `statusCode / 100 != 2`, so 300 fails and 299
passes), and return success only when the body was read, the status is in
200-299, and the body unmarshals into the response value. -/
theorem toResponse_status_check {α : Type} (sc : Nat)
    (bodyRead : Option (List Nat)) (um umt : List Nat → Option α) :
    (¬ (200 ≤ sc ∧ sc ≤ 299) →
      (∃ e, toResponse sc bodyRead um = .error e) ∧
      (∃ e, toResponseThrift sc bodyRead umt = .error e)) ∧
    (sc / 100 = 2 ↔ 200 ≤ sc ∧ sc ≤ 299) ∧
    (∀ v, toResponse sc bodyRead um = .ok v →
      ∃ b, bodyRead = some b ∧ 200 ≤ sc ∧ sc ≤ 299 ∧ um b = some v) ∧
    (∀ v, toResponseThrift sc bodyRead umt = .ok v →
      ∃ b, bodyRead = some b ∧ 200 ≤ sc ∧ sc ≤ 299 ∧ umt b = some v) := by
  have hdiv : sc / 100 = 2 ↔ 200 ≤ sc ∧ sc ≤ 299 := by omega
  refine ⟨?_, hdiv, ?_, ?_⟩
  · intro hout
    have hne : sc / 100 ≠ 2 := fun hd => hout (hdiv.mp hd)
    constructor
    · cases bodyRead with
      | none => exact ⟨.readFailure, rfl⟩
      | some b =>
        refine ⟨.badStatus sc, ?_⟩
        rw [toResponse, if_pos hne]
    · cases bodyRead with
      | none => exact ⟨.readFailure, rfl⟩
      | some b =>
        refine ⟨.badStatus sc, ?_⟩
        rw [toResponseThrift, if_pos hne]
  · intro v hok
    cases bodyRead with
    | none => exact absurd hok (by rw [toResponse]; simp)
    | some b =>
      rw [toResponse] at hok
      by_cases hne : sc / 100 ≠ 2
      · rw [if_pos hne] at hok
        exact absurd hok (by simp)
      · rw [if_neg hne] at hok
        rw [Classical.not_not] at hne
        cases hu : um b with
        | none => rw [hu] at hok; exact absurd hok (by simp)
        | some v2 =>
          rw [hu] at hok
          have hv : v2 = v := by
            rw [Except.ok.injEq] at hok
            exact hok
          obtain ⟨hl, hr⟩ := hdiv.mp hne
          exact ⟨b, rfl, hl, hr, by rw [hu, hv]⟩
  · intro v hok
    cases bodyRead with
    | none => exact absurd hok (by rw [toResponseThrift]; simp)
    | some b =>
      rw [toResponseThrift] at hok
      by_cases hne : sc / 100 ≠ 2
      · rw [if_pos hne] at hok
        exact absurd hok (by simp)
      · rw [if_neg hne] at hok
        rw [Classical.not_not] at hne
        cases hu : umt b with
        | none => rw [hu] at hok; exact absurd hok (by simp)
        | some v2 =>
          rw [hu] at hok
          have hv : v2 = v := by
            rw [Except.ok.injEq] at hok
            exact hok
          obtain ⟨hl, hr⟩ := hdiv.mp hne
          exact ⟨b, rfl, hl, hr, by rw [hu, hv]⟩

/-- Witness for C10: status 300 is rejected by both helpers. -/
theorem toResponse_status_check_witness :
    (∃ e, toResponse 300 (some []) (fun _ => some 0) = .error e) ∧
    (∃ e, toResponseThrift 300 (some []) (fun _ => some 0) = .error e) :=
  (toResponse_status_check 300 (some [])
    (fun _ => some 0) (fun _ => some 0)).1 (by omega)

end M3
